import Mathlib

/-!
Verification development for the "better-drinking-bird" agent supervisor.

The Python sources under `src/drinkingbird/` are shallowly embedded here:
pure functions become Lean functions, the filesystem / LLM environment is
passed explicitly, Python exceptions become `Except PyExn`, and Python
`re` pattern matching is embedded by a small backtracking engine
implementing the `re.search` semantics for the pattern subset the
program uses (character classes, `\s \S \w \d \b`, groups, alternation,
`* + ?`, negative lookahead, `^ $`, `.`, with an IGNORECASE flag).

The staged source's tracer wiring is broken and is modeled as such:
`get_hook` constructs every hook with a `tracer=` keyword that
`Hook.__init__` does not accept (a `TypeError`, raised outside the
supervisor's `try`/`except`), and the post-LLM `if self.tracer:` reads in
`stop.py` and `tool_failure.py` raise `AttributeError` on every
constructible instance, making the code below them unreachable.
-/

namespace DrinkingBird

/-! ## Basic string helpers (Python `str` operations) -/

/-- Boolean list prefix test (mirrors Python `str.startswith` at char level). -/
def isPre : List Char → List Char → Bool
  | [], _ => true
  | _ :: _, [] => false
  | a :: as_, b :: bs => a == b && isPre as_ bs

/-- Boolean substring test (Python `needle in hay`). -/
def listContains : List Char → List Char → Bool
  | hay, needle =>
    isPre needle hay ||
      (match hay with
       | [] => false
       | _ :: t => listContains t needle)

/-- Python `needle in hay` on strings. -/
def strContainsSub (hay needle : String) : Bool :=
  listContains hay.data needle.data

/-- Python `str.lower()` (ASCII as used by the program). -/
def lowerStr (s : String) : String :=
  String.mk (s.data.map Char.toLower)

/-- Python whitespace, the set stripped by `str.strip()`. -/
def isSpaceCharPy (c : Char) : Bool :=
  c == ' ' || c == '\t' || c == '\n' || c == '\r' || c == '\x0b' || c == '\x0c'

/-- Python `str.strip()`. -/
def stripStr (s : String) : String :=
  String.mk (((s.data.dropWhile isSpaceCharPy).reverse.dropWhile isSpaceCharPy).reverse)

/-- Python slicing `s[:n]`. -/
def takeStr (n : Nat) (s : String) : String := String.mk (s.data.take n)

/-- Python slicing `s[n:]`. -/
def dropStr (n : Nat) (s : String) : String := String.mk (s.data.drop n)

/-- Python `s.startswith(p)`. -/
def startsWithStr (s p : String) : Bool := isPre p.data s.data

/-- Python `sep.join(l)`. -/
def joinStr (sep : String) : List String → String
  | [] => ""
  | [x] => x
  | x :: xs => x ++ sep ++ joinStr sep xs

/-- Python `os.path.basename` for the inputs used (text after the last slash). -/
def basename (s : String) : String :=
  String.mk ((s.data.reverse.takeWhile (fun c => c != '/')).reverse)

/-- Split a path at slashes (Python `"p".split("/")`). -/
def splitSlashAux : List Char → List Char → List String
  | [], acc => [String.mk acc.reverse]
  | c :: rest, acc =>
    if c == '/' then String.mk acc.reverse :: splitSlashAux rest []
    else splitSlashAux rest (c :: acc)

def splitSlash (s : String) : List String := splitSlashAux s.data []

/-- Python `os.path.isabs`. -/
def isAbsPath (s : String) : Bool := startsWithStr s "/"

/-- Python `os.path.join(cwd, m)` for the shapes the program uses. -/
def joinPath (cwd m : String) : String :=
  if cwd = "" then m
  else if cwd.data.getLast? == some '/' then cwd ++ m
  else cwd ++ "/" ++ m

/-- First-occurrence deduplication (the `seen`-set loops in the source). -/
def dedupFirst (l : List String) : List String :=
  l.foldl (fun acc x => if acc.contains x then acc else acc ++ [x]) []

/-- Association-list lookup (Python `dict` with insertion order). -/
def alistGet {α : Type} (d : List (String × α)) (k : String) : Option α :=
  match d.find? (fun p => p.1 == k) with
  | some p => some p.2
  | none => none

/-! ## Regex engine: Python `re.search` for the pattern subset used -/

/-- Predefined character classes `\s \S \w \W \d \D`. -/
inductive PClass where
  | ws | nws | word | nword | digit | ndigit
  deriving DecidableEq

/-- An item of a bracket character class. -/
inductive ClsItem where
  | ch (c : Char)
  | range (a b : Char)
  | pc (k : PClass)
  deriving DecidableEq

/-- Regex abstract syntax for the subset of Python `re` used by the program. -/
inductive RE where
  | eps
  | ch (c : Char)
  | anyc
  | cls (neg : Bool) (items : List ClsItem)
  | pc (k : PClass)
  | seq (a b : RE)
  | alt (a b : RE)
  | star (a : RE)
  | nla (a : RE)
  | bol
  | eol
  | wordB
  deriving DecidableEq

/-- Python `\w` membership (ASCII fragment actually exercised). -/
def isWordChar (c : Char) : Bool := c.isAlphanum || c == '_'

/-- Python `\s` membership. -/
def isSpaceChar (c : Char) : Bool :=
  c == ' ' || c == '\t' || c == '\n' || c == '\r' || c == '\x0b' || c == '\x0c'

def pclassMatch (k : PClass) (c : Char) : Bool :=
  match k with
  | .ws => isSpaceChar c
  | .nws => !isSpaceChar c
  | .word => isWordChar c
  | .nword => !isWordChar c
  | .digit => c.isDigit
  | .ndigit => !c.isDigit

/-- Match a single char against a literal, honouring IGNORECASE. -/
def charEq (ci : Bool) (x pat : Char) : Bool :=
  if ci then x.toLower == pat.toLower else x == pat

def clsItemMatch (ci : Bool) (it : ClsItem) (c : Char) : Bool :=
  match it with
  | .ch a => charEq ci c a
  | .range a b =>
    if ci then
      (a ≤ c.toLower && c.toLower ≤ b) || (a ≤ c.toUpper && c.toUpper ≤ b)
      || (a ≤ c && c ≤ b)
    else a ≤ c && c ≤ b
  | .pc k => pclassMatch k c

def clsMatch (ci : Bool) (neg : Bool) (items : List ClsItem) (c : Char) : Bool :=
  let m := items.any (fun it => clsItemMatch ci it c)
  if neg then !m else m

/-- Backtracking matcher with fuel. `prev` is the char just before the current
position (for `^` and `\b`); `k` is the continuation, receiving the rest of
the input and the new previous char. -/
def matchRE (ci : Bool) : Nat → RE → List Char → Option Char →
    (List Char → Option Char → Bool) → Bool
  | 0, _, _, _, _ => false
  | _ + 1, .eps, s, prev, k => k s prev
  | _ + 1, .ch c, s, prev, k =>
    match s with
    | [] => false
    | x :: xs => charEq ci x c && k xs (some x)
  | _ + 1, .anyc, s, _, k =>
    match s with
    | [] => false
    | x :: xs => x != '\n' && k xs (some x)
  | _ + 1, .cls neg items, s, _, k =>
    match s with
    | [] => false
    | x :: xs => clsMatch ci neg items x && k xs (some x)
  | _ + 1, .pc kc, s, _, k =>
    match s with
    | [] => false
    | x :: xs => pclassMatch kc x && k xs (some x)
  | fuel + 1, .seq a b, s, prev, k =>
    matchRE ci fuel a s prev (fun s2 p2 => matchRE ci fuel b s2 p2 k)
  | fuel + 1, .alt a b, s, prev, k =>
    matchRE ci fuel a s prev k || matchRE ci fuel b s prev k
  | fuel + 1, .star a, s, prev, k =>
    (matchRE ci fuel a s prev (fun s2 p2 =>
       decide (s2.length < s.length) && matchRE ci fuel (.star a) s2 p2 k))
    || k s prev
  | fuel + 1, .nla a, s, prev, k =>
    !(matchRE ci fuel a s prev (fun _ _ => true)) && k s prev
  | _ + 1, .bol, s, prev, k => prev.isNone && k s prev
  | _ + 1, .eol, s, prev, k =>
    (s.isEmpty || s == ['\n']) && k s prev
  | _ + 1, .wordB, s, prev, k =>
    let b1 := match prev with | some c => isWordChar c | none => false
    let b2 := match s with | x :: _ => isWordChar x | [] => false
    (b1 != b2) && k s prev

/-- Structural size of a regex, used to compute a sufficient fuel. -/
def reSize : RE → Nat
  | .seq a b => reSize a + reSize b + 1
  | .alt a b => reSize a + reSize b + 1
  | .star a => reSize a + 1
  | .nla a => reSize a + 1
  | _ => 1

/-- Try a match starting at every position of the input (Python `re.search`). -/
def searchAt (ci : Bool) (fuel : Nat) (r : RE) :
    List Char → Option Char → Bool
  | s, prev =>
    matchRE ci fuel r s prev (fun _ _ => true) ||
      (match s with
       | [] => false
       | x :: xs => searchAt ci fuel r xs (some x))

/-! ### Pattern parser -/

/-- Escape sequences appearing after a backslash. -/
def escAtom (c : Char) : RE :=
  match c with
  | 's' => .pc .ws
  | 'S' => .pc .nws
  | 'w' => .pc .word
  | 'W' => .pc .nword
  | 'd' => .pc .digit
  | 'D' => .pc .ndigit
  | 'b' => .wordB
  | 'n' => .ch '\n'
  | 't' => .ch '\t'
  | c => .ch c

def escClsItem (c : Char) : ClsItem :=
  match c with
  | 's' => .pc .ws
  | 'S' => .pc .nws
  | 'w' => .pc .word
  | 'W' => .pc .nword
  | 'd' => .pc .digit
  | 'D' => .pc .ndigit
  | 'n' => .ch '\n'
  | 't' => .ch '\t'
  | c => .ch c

/-- Parse the items of a bracket class up to the closing `]`. -/
def parseClsItems : Nat → List Char → Option (List ClsItem × List Char)
  | 0, _ => none
  | _ + 1, ']' :: rest => some ([], rest)
  | fuel + 1, '\\' :: c :: rest => do
    let (items, rest2) ← parseClsItems fuel rest
    pure (escClsItem c :: items, rest2)
  | fuel + 1, a :: '-' :: c :: rest =>
    if c == ']' then do
      let (items, rest2) ← parseClsItems fuel (c :: rest)
      pure (ClsItem.ch a :: ClsItem.ch '-' :: items, rest2)
    else do
      let (items, rest2) ← parseClsItems fuel rest
      pure (ClsItem.range a c :: items, rest2)
  | fuel + 1, a :: rest => do
    let (items, rest2) ← parseClsItems fuel rest
    pure (ClsItem.ch a :: items, rest2)
  | _, [] => none

mutual

/-- Parse an alternation `seq ('|' seq)*`. -/
def parseAlt : Nat → List Char → Option (RE × List Char)
  | 0, _ => none
  | fuel + 1, cs => do
    let (a, rest) ← parseSeq fuel cs
    match rest with
    | '|' :: rest2 => do
      let (b, rest3) ← parseAlt fuel rest2
      pure (RE.alt a b, rest3)
    | _ => pure (a, rest)

/-- Parse a (possibly empty) sequence of quantified atoms. -/
def parseSeq : Nat → List Char → Option (RE × List Char)
  | 0, _ => none
  | fuel + 1, cs =>
    match cs with
    | [] => some (RE.eps, [])
    | ')' :: _ => some (RE.eps, cs)
    | '|' :: _ => some (RE.eps, cs)
    | _ => do
      let (a, rest) ← parseAtomQ fuel cs
      let (b, rest2) ← parseSeq fuel rest
      match b with
      | RE.eps => pure (a, rest2)
      | _ => pure (RE.seq a b, rest2)

/-- Parse one atom with an optional `* + ?` quantifier. -/
def parseAtomQ : Nat → List Char → Option (RE × List Char)
  | 0, _ => none
  | fuel + 1, cs => do
    let (a, rest) ← parseAtom fuel cs
    match rest with
    | '*' :: rest2 => pure (RE.star a, rest2)
    | '+' :: rest2 => pure (RE.seq a (RE.star a), rest2)
    | '?' :: rest2 => pure (RE.alt a RE.eps, rest2)
    | _ => pure (a, rest)

/-- Parse a single atom. -/
def parseAtom : Nat → List Char → Option (RE × List Char)
  | 0, _ => none
  | fuel + 1, cs =>
    match cs with
    | '(' :: '?' :: ':' :: rest => do
      let (a, rest2) ← parseAlt fuel rest
      match rest2 with
      | ')' :: rest3 => pure (a, rest3)
      | _ => none
    | '(' :: '?' :: '!' :: rest => do
      let (a, rest2) ← parseAlt fuel rest
      match rest2 with
      | ')' :: rest3 => pure (RE.nla a, rest3)
      | _ => none
    | '(' :: rest => do
      let (a, rest2) ← parseAlt fuel rest
      match rest2 with
      | ')' :: rest3 => pure (a, rest3)
      | _ => none
    | '[' :: '^' :: rest => do
      let (items, rest2) ← parseClsItems fuel rest
      pure (RE.cls true items, rest2)
    | '[' :: rest => do
      let (items, rest2) ← parseClsItems fuel rest
      pure (RE.cls false items, rest2)
    | '\\' :: c :: rest => pure (escAtom c, rest)
    | '^' :: rest => pure (RE.bol, rest)
    | '$' :: rest => pure (RE.eol, rest)
    | '.' :: rest => pure (RE.anyc, rest)
    | c :: rest => pure (RE.ch c, rest)
    | [] => none

end

/-- Parse a whole pattern string. -/
def parsePattern (pat : String) : Option RE :=
  match parseAlt (pat.length * 2 + 8) pat.data with
  | some (r, []) => some r
  | _ => none

/-- Python `re.search(pattern, s, flags)`; `ci` is `re.IGNORECASE`.
An unparseable pattern (not exercised by the program) yields `false`. -/
def research (ci : Bool) (pat : String) (s : String) : Bool :=
  match parsePattern pat with
  | none => false
  | some r =>
    let cs := s.data
    searchAt ci ((reSize r + 4) * (cs.length + 4) * 2) r cs none

/-- Python `re.findall` for the mention pattern: an `@` followed by one or
more word, dot, slash or dash characters, capturing the run after the `@`.
This left-to-right scanner is equivalent for that pattern (shared by
`stop.py` and `pre_compact.py`, `_extract_mentions`). -/
def mentionCharOk (c : Char) : Bool :=
  isWordChar c || c == '.' || c == '/' || c == '-'

def mentionsAux : List Char → List Char → Bool → List String
  | [], acc, inRun =>
    if inRun && !acc.isEmpty then [String.mk acc.reverse] else []
  | c :: rest, acc, inRun =>
    if inRun then
      if mentionCharOk c then mentionsAux rest (c :: acc) true
      else
        (if !acc.isEmpty then [String.mk acc.reverse] else []) ++
          (if c == '@' then mentionsAux rest [] true else mentionsAux rest [] false)
    else if c == '@' then mentionsAux rest [] true
    else mentionsAux rest [] false

/-- `_extract_mentions(text)` from `stop.py` / `pre_compact.py`. -/
def extractMentions (text : String) : List String :=
  mentionsAux text.data [] false

/-! ## Data model: decisions and hook results (`hooks/base.py`) -/

inductive Decision where
  | allow | block | kill
  deriving DecidableEq

structure HookResult where
  decision : Decision := .allow
  reason : String := ""
  message : String := ""
  additionalContext : String := ""
  deriving DecidableEq

/-- `HookResult.allow`. -/
def HookResult.mkAllow (reason : String := "") : HookResult :=
  { decision := .allow, reason := reason }

/-- `HookResult.block`: `reason = reason or message`. -/
def HookResult.mkBlock (message : String) (reason : String := "") : HookResult :=
  { decision := .block
    reason := if reason = "" then message else reason
    message := message }

/-- `HookResult.kill`. -/
def HookResult.mkKill (reason : String) : HookResult :=
  { decision := .kill, reason := reason }

/-- `HookResult.with_context`. -/
def HookResult.withContext (context : String) : HookResult :=
  { decision := .allow, additionalContext := context }

/-- A Python exception crossing a boundary (only its message matters here). -/
structure PyExn where
  msg : String
  deriving DecidableEq

/-- Python values appearing in tool inputs and parsed JSONL transcripts. -/
inductive PyVal where
  | str (s : String)
  | num (n : Int)
  | bool (b : Bool)
  | none
  | list (l : List PyVal)
  | dict (d : List (String × PyVal))

/-- Python `d.get(k)` on a dict value; `Option.none` when absent or not a dict. -/
def PyVal.get : PyVal → String → Option PyVal
  | .dict d, k => alistGet d k
  | _, _ => Option.none

/-- Python `d.get(k, default)` where a string is expected (the schema-constrained
uses in the source always receive strings there). -/
def pyGetStr (v : PyVal) (k : String) (dflt : String) : String :=
  match v.get k with
  | some (.str s) => s
  | _ => dflt

/-! ## `safety/patterns.py` -/

structure SafetyPattern where
  pattern : String
  reason : String
  category : String
  deriving DecidableEq

/-- `SAFETY_CATEGORIES` (insertion-ordered dict of category → rules). -/
def SAFETY_CATEGORIES : List (String × List SafetyPattern) :=
  [ ("ci_bypass",
     [ ⟨"--no-verify", "NO. Do not bypass pre-commit hooks. Fix the issue.", "ci_bypass"⟩,
       ⟨"--no-gpg-sign", "Do not skip GPG signing.", "ci_bypass"⟩,
       ⟨"--skip-hooks", "Do not skip hooks.", "ci_bypass"⟩,
       ⟨"HUSKY\\s*=\\s*0", "Do not disable Husky.", "ci_bypass"⟩,
       ⟨"PRE_COMMIT_ALLOW_NO_CONFIG", "Do not bypass pre-commit.", "ci_bypass"⟩,
       ⟨"(?:sed|awk|perl|ed|cat\\s*>|echo\\s.*>|tee)\\s.*pre.commit",
        "Do not modify pre-commit hooks. Fix the code, not the safety net.", "ci_bypass"⟩,
       ⟨"chmod\\s.*pre.commit",
        "Do not modify pre-commit hook permissions. Fix the code, not the safety net.",
        "ci_bypass"⟩ ]),
    ("destructive_git",
     [ ⟨"git\\s+reset\\s+--hard", "NO. git reset --hard destroys work. Ask the user first.",
        "destructive_git"⟩,
       ⟨"git\\s+clean\\s+-f", "NO. git clean -f deletes untracked files. Ask the user.",
        "destructive_git"⟩,
       ⟨"git\\s+(?:checkout|co)\\s+\\.", "NO. git checkout . discards changes. Ask the user.",
        "destructive_git"⟩,
       ⟨"git\\s+restore\\s+\\.", "NO. git restore . discards changes. Ask the user.",
        "destructive_git"⟩,
       ⟨"git\\s+push\\s+--force", "NO. Force push is destructive. Ask the user.",
        "destructive_git"⟩,
       ⟨"git\\s+push\\s+-f\\b", "NO. Force push is destructive. Ask the user.",
        "destructive_git"⟩,
       ⟨"git\\s+branch\\s+-D", "NO. git branch -D force-deletes branches. Use -d instead.",
        "destructive_git"⟩ ]),
    ("branch_switching",
     [ ⟨"git\\s+(?:switch|sw)\\s+(?!-[cC]\\b)(?!--create\\b)\\S",
        "ABSOLUTELY NOT. Switching branches corrupts worktrees. Stay on your assigned branch. Use `git switch -C <name>` to create a new branch.",
        "branch_switching"⟩,
       ⟨"git\\s+(?:checkout|co)\\s+(?!--)[\\w\\-/]",
        "ABSOLUTELY NOT. Switching branches corrupts worktrees. Stay on your assigned branch. Use `git switch -C <name>` to create a new branch.",
        "branch_switching"⟩,
       ⟨"git\\s+(?:checkout|co)\\s+\\S+\\s+--\\s+\\.",
        "ABSOLUTELY NOT. Checking out all files from another ref destroys the worktree. Stay on your assigned branch.",
        "branch_switching"⟩,
       ⟨"git\\s+push\\s+\\S+\\s+(main|master)\\b",
        "Do not push directly to main/master. Use a pull request.", "branch_switching"⟩,
       ⟨"git\\s+push\\s+\\S+\\s+\\S+:(main|master)\\b",
        "Do not push directly to main/master. Use a pull request.", "branch_switching"⟩ ]),
    ("interactive_git",
     [ ⟨"git\\s+rebase\\s+-i", "Interactive rebase won\x27t work in this environment.",
        "interactive_git"⟩,
       ⟨"git\\s+add\\s+-i", "Interactive add won\x27t work in this environment.",
        "interactive_git"⟩,
       ⟨"git\\s+add\\s+-p", "Patch add won\x27t work in this environment.",
        "interactive_git"⟩ ]),
    ("dangerous_files",
     [ ⟨"rm\\s+-rf\\s+/", "NO. Absolutely not.", "dangerous_files"⟩,
       ⟨"rm\\s+-rf\\s+~", "NO. Do not delete home directory.", "dangerous_files"⟩,
       ⟨"rm\\s+-rf\\s+\\*", "NO. Do not delete everything.", "dangerous_files"⟩,
       ⟨">\\s*/dev/sd", "NO. Do not write to block devices.", "dangerous_files"⟩ ]),
    ("git_history",
     [ ⟨"git\\s+log\\b(?!.*--oneline\\b)",
        "Don\x27t dig through git history for bugs. Read the actual code.", "git_history"⟩,
       ⟨"git\\s+blame\\b",
        "Don\x27t use git blame. Claude wrote those commits. Read the actual code.",
        "git_history"⟩ ]),
    ("credential_access",
     [ ⟨"cat\\s+.*\\.env\\b", "Do not cat .env files. They contain secrets.",
        "credential_access"⟩,
       ⟨"cat\\s+.*credentials", "Do not cat credential files.", "credential_access"⟩,
       ⟨"cat\\s+.*\\.pem\\b", "Do not cat private keys.", "credential_access"⟩,
       ⟨"cat\\s+.*_rsa\\b", "Do not cat SSH keys.", "credential_access"⟩ ]) ]

/-- `ALLOWED_PATTERNS` (the override allow-list). -/
def ALLOWED_PATTERNS : List String :=
  [ "git\\s+diff\\b(?!.*HEAD~)",
    "git\\s+status\\b",
    "git\\s+log\\s+--oneline\\b",
    "git\\s+(?:checkout|co)\\s+\\S+\\s+--\\s+(?!\\.(?:\\s|$))\\S" ]

/-- The loop body of `get_enabled_patterns`: extend with the category's
rules when it is enabled and present in `SAFETY_CATEGORIES`. -/
def enabledStep (patterns : List SafetyPattern) (p : String × Bool) :
    List SafetyPattern :=
  if p.2 then
    match alistGet SAFETY_CATEGORIES p.1 with
    | some ps => patterns ++ ps
    | none => patterns
  else patterns

/-- `get_enabled_patterns(enabled_categories)`. -/
def get_enabled_patterns (enabledCategories : List (String × Bool)) : List SafetyPattern :=
  enabledCategories.foldl enabledStep []

/-- Commands matching the override allow-list (the first loop of `check_command`). -/
def matchesAllowed (command : String) : Bool :=
  ALLOWED_PATTERNS.any (fun pat => research true pat command)

/-- `check_command(command, enabled_categories)` → `(is_forbidden, reason)`. -/
def check_command (command : String)
    (enabledCategories : Option (List (String × Bool))) : Bool × String :=
  if matchesAllowed command then (false, "")
  else
    let enabled :=
      match enabledCategories with
      | some e => e
      | none => SAFETY_CATEGORIES.map (fun p => (p.1, true))
    match (get_enabled_patterns enabled).find?
        (fun sp => research true sp.pattern command) with
    | some sp => (true, sp.reason)
    | none => (false, "")

/-! ## `safety/command_classifier.py` -/

def NEEDS_LLM_PATTERNS : List String :=
  [ "rm\\s+-rf?\\s+",
    "rm\\s+-fr?\\s+",
    "base64\\s+(-d|--decode)",
    "xxd\\s+-r",
    "exec\\s*\\([^)]*decode",
    "eval\\s+\\$\\(",
    "curl\\s+[^|]+\\|\\s*(bash|sh|zsh)",
    "wget\\s+[^|]+\\|\\s*(bash|sh|zsh)",
    "curl.*-o\\s*-.*\\|\\s*(bash|sh)" ]

def ALWAYS_ALLOWED_PATTERNS : List String :=
  [ "rm\\s+-rf?\\s+(node_modules|dist|build|\\.cache|__pycache__|\\.pytest_cache|coverage|\\.next|\\.nuxt|target|vendor)/?\\s*$",
    "rm\\s+-rf?\\s+\\./?(node_modules|dist|build|\\.cache|__pycache__|\\.pytest_cache|coverage|\\.next|\\.nuxt|target|vendor)/?\\s*$" ]

structure ClassificationResult where
  is_blocked : Bool
  category : String
  reason : String
  message : String
  deriving DecidableEq

/-- `needs_llm_classification(command)`. -/
def needs_llm_classification (command : String) : Bool :=
  if ALWAYS_ALLOWED_PATTERNS.any (fun pat => research true pat command) then false
  else NEEDS_LLM_PATTERNS.any (fun pat => research true pat command)

/-- One LLM provider as the pipelines see it: configured or not, and one
schema-constrained structured response (a dict) or a raised transport/parse
exception, per call site. -/
structure ProviderEnv where
  configured : Bool
  stopResp : Except PyExn (List (String × PyVal))
  classifyResp : Except PyExn (List (String × PyVal))
  failResp : Except PyExn (List (String × PyVal))

/-- `classify_command(command, transcript_path, llm_provider, debug, fallback)`.
The prompt construction does not influence the verdict and is omitted;
the `try`/`except` around the call maps a raised exception to a block. -/
def classify_command (provider : Option ProviderEnv) (fallback : String) :
    ClassificationResult :=
  match provider with
  | Option.none =>
    if fallback = "allow" then
      ⟨false, "none", "No LLM configured, fallback to allow", ""⟩
    else
      ⟨true, "none", "No LLM configured, fallback to block",
       "Command requires LLM classification but none configured."⟩
  | some p =>
    if !p.configured then
      if fallback = "allow" then
        ⟨false, "none", "No LLM configured, fallback to allow", ""⟩
      else
        ⟨true, "none", "No LLM configured, fallback to block",
         "Command requires LLM classification but none configured."⟩
    else
      match p.classifyResp with
      | .error e =>
        ⟨true, "other", "LLM classification failed: " ++ e.msg,
         "Classification failed. Command blocked for safety."⟩
      | .ok content =>
        let decision := pyGetStr (.dict content) "decision" "block"
        let category := pyGetStr (.dict content) "category" "other"
        let reason := pyGetStr (.dict content) "reason" "Unknown"
        let message := pyGetStr (.dict content) "message" "Command blocked."
        ⟨decision == "block", category, reason, message⟩

/-! ## Hook inputs and the external environment -/

/-- `mode.py` supervision modes. -/
inductive Mode where
  | default | auto | interactive
  deriving DecidableEq

/-- One registered linked worktree as `pre_compact.py` reads it from
`.git/worktrees/<name>/`: the entry name, the content of its `HEAD` file
(`Option.none` when the file does not exist) and the content of its
`gitdir` file. -/
structure WorktreeEntry where
  name : String
  headContent : Option String
  gitdirContent : Option String
  deriving DecidableEq

/-- The normalized hook event (`hook_input` after adapter translation). -/
structure HookInput where
  eventName : String := ""
  toolName : String := ""
  toolInput : List (String × PyVal) := []
  toolResponse : PyVal := .str ""
  transcriptPath : String := ""
  cwd : String := ""

/-- What `_find_git_root` and the `.git` probe of `_get_git_context` find
when walking up from the working directory: no repository at all, a linked
worktree (`.git` is a file; `worktreePath` is the found root, `headContent`
the HEAD read through the `gitdir:` indirection, `Option.none` when that
chain is unreadable or malformed), or a primary checkout (`.git` is a
directory; its HEAD and `worktrees/` entries live in `Env`). -/
inductive GitState where
  | noRepo
  | linked (worktreePath : String) (headContent : Option String)
  | primary

/-- The read-once external world of a single invocation: the parsed JSONL
transcript (empty when the file is missing; unparseable lines are already
dropped, as `_parse_transcript` does), the readable files (absolute path →
content), the LLM provider, the git metadata `pre_compact.py` inspects, and
the pause/mode sentinels. -/
structure Env where
  provider : Option ProviderEnv := Option.none
  transcript : List PyVal := []
  files : List (String × String) := []
  gitState : GitState := .noRepo
  mainHead : Option String := Option.none
  worktrees : List WorktreeEntry := []
  transcriptText : Option String := Option.none
  paused : Bool := false
  mode : Mode := .default

/-- Check whether an optional Python value equals a given string. -/
def pyIsStr (v : Option PyVal) (s : String) : Bool :=
  match v with
  | some (.str t) => t == s
  | _ => false

mutual

/-- Python `str()` of a value, for the `str(content)` fallbacks of
`stop.py` (rendering approximates CPython's repr; only its use as an
opaque string matters to the pipelines). -/
def pyRepr : PyVal → String
  | .str s => s
  | .num n => toString n
  | .bool b => if b then "True" else "False"
  | .none => "None"
  | .list l => "[" ++ joinStr ", " (pyReprL l) ++ "]"
  | .dict d => "\x7b" ++ joinStr ", " (pyReprD d) ++ "\x7d"

def pyReprL : List PyVal → List String
  | [] => []
  | v :: vs => pyRepr v :: pyReprL vs

def pyReprD : List (String × PyVal) → List String
  | [] => []
  | p :: vs => ("\x27" ++ p.1 ++ "\x27: " ++ pyRepr p.2) :: pyReprD vs

end

/-- The text-block join used for `content` lists: keep `text`-typed dict
blocks and bare strings, join with newlines. -/
def textFromBlocks (blocks : List PyVal) : String :=
  joinStr "\n"
    (blocks.filterMap (fun block =>
      match block with
      | .dict d =>
        if pyIsStr (alistGet d "type") "text" then
          some (pyGetStr (.dict d) "text" "")
        else Option.none
      | .str s => some s
      | _ => Option.none))

/-! ## `hooks/stop.py` -/

def IGNORED_DOC_FILES : List String := ["CLAUDE.md", "AGENTS.md", "README.md"]

def PERMISSION_SEEKING_PATTERNS : List String :=
  [ "ready\\s+for\\s+(your\\s+)?feedback",
    "should\\s+I\\s+proceed",
    "would\\s+you\\s+like\\s+(me\\s+to|to)",
    "if\\s+you\\s+(want|would\\s+like)",
    "let\\s+me\\s+know\\s+(if|when|what)",
    "awaiting\\s+(your|further)",
    "waiting\\s+for\\s+(your|further)",
    "please\\s+(confirm|let\\s+me\\s+know|advise)",
    "do\\s+you\\s+want\\s+me\\s+to",
    "shall\\s+I\\s+(proceed|continue|go\\s+ahead)",
    "I\\s+can\\s+(also|help|assist).*if\\s+you",
    "what\\s+would\\s+you\\s+like\\s+me\\s+to",
    "I(\x27m|\\s+am)\\s+ready\\s+(to|for)",
    "next\\s+steps.*\\?\\s*$",
    "time\\s+to\\s+(execute|implement|build|start|begin)",
    "(foundation|groundwork|setup)\\s+is\\s+(solid|complete|ready|done)",
    "ready\\s+to\\s+(execute|implement|build|start|begin)",
    "now\\s+(you\\s+can|we\\s+can)\\s+(execute|implement|build)",
    "(plan|design|architecture)\\s+is\\s+(complete|ready|solid|done)\\.?\\s*$",
    "(I\x27ve|I\\s+have)\\s+made\\s+(good\\s+)?progress",
    "let\\s+me\\s+save\\s+this\\s+work",
    "summary\\s+(coming|follows)",
    "due\\s+to\\s+(the\\s+)?complexity",
    "session\\s+\\d+\\s+(summary|recap)" ]

/-- `_extract_all_user_messages`. Shapes with non-textual `content` that
would raise in Python are never produced by the supported agents and are
skipped here. -/
def extractAllUserMessages (messages : List PyVal) : List String :=
  messages.filterMap (fun msg =>
    if pyIsStr (msg.get "type") "user" then
      -- inner_msg = msg.get("message", {}); dict → content str/list,
      -- absent key defaults to ""; str → itself; other shapes append nothing
      match msg.get "message" with
      | some (.dict inner) =>
        match alistGet inner "content" with
        | some (.str s) => some s
        | some (.list blocks) => some (textFromBlocks blocks)
        | some _ => Option.none
        | Option.none => some ""
      | some (.str s) => some s
      | Option.none => some ""
      | _ => Option.none
    else if pyIsStr (msg.get "role") "user" then
      -- content = msg.get("content", ""); list → joined text blocks.
      -- A non-string, non-list content would be appended raw in Python and
      -- later crash the regex scan; such shapes are outside the claims.
      match msg.get "content" with
      | some (.list blocks) => some (textFromBlocks blocks)
      | some (.str s) => some s
      | Option.none => some ""
      | _ => Option.none
    else if pyIsStr (msg.get "type") "human" then
      -- content = msg.get("message", ""); dict → content.get("content", "");
      -- then str(content)
      match msg.get "message" with
      | some (.dict inner) =>
        match alistGet inner "content" with
        | some v => some (pyRepr v)
        | Option.none => some ""
      | some v => some (pyRepr v)
      | Option.none => some ""
    else Option.none)

/-- `_extract_user_messages`: first and last user message. -/
def extractUserMessages (messages : List PyVal) : Option String × Option String :=
  let userMessages := extractAllUserMessages messages
  (userMessages.head?, userMessages.getLast?)

/-- Extract assistant text from one message, if it is an assistant message
(`_extract_last_assistant` loop body). -/
def assistantTextOf (msg : PyVal) : Option String :=
  if pyIsStr (msg.get "role") "assistant" then
    -- content = msg.get("content", ""); str → itself, list → joined blocks,
    -- dict → text field when type == "text" else str(content),
    -- anything else → str(content)
    match msg.get "content" with
    | some (.str s) => some s
    | some (.list blocks) => some (textFromBlocks blocks)
    | some (.dict d) =>
      if pyIsStr (alistGet d "type") "text" then some (pyGetStr (.dict d) "text" "")
      else some (pyRepr (.dict d))
    | some v => some (pyRepr v)
    | Option.none => some ""
  else if pyIsStr (msg.get "type") "assistant" then
    -- message = msg.get("message", {}); dict → inner content handling,
    -- with a fall-through to str(message) when content has another shape
    match msg.get "message" with
    | some (.dict inner) =>
      match alistGet inner "content" with
      | some (.str s) => some s
      | some (.list blocks) => some (textFromBlocks blocks)
      | some (.dict d) =>
        if pyIsStr (alistGet d "type") "text" then some (pyGetStr (.dict d) "text" "")
        else some (pyRepr (.dict d))
      | some _ => some (pyRepr (.dict inner))
      | Option.none => some ""
    | some (.str s) => some s
    | some v => some (pyRepr v)
    | Option.none => some ""
  else Option.none

/-- `_extract_last_assistant`: scan the transcript in reverse. -/
def extractLastAssistant (messages : List PyVal) : Option String :=
  messages.reverse.findSome? assistantTextOf

/-- `_check_permission_seeking`. -/
def checkPermissionSeeking (text : String) : Option String :=
  if text = "" then Option.none
  else
    (PERMISSION_SEEKING_PATTERNS.find? (fun pat => research true pat text)).map
      (fun pat => "Permission-seeking detected: \x27" ++ pat ++ "\x27")

/-- Resolve a mention against the working directory (shared by
`_read_mentioned_files` and `_filter_valid_mentions`). -/
def resolveMention (cwd mention : String) : String :=
  if !isAbsPath mention then joinPath cwd mention else mention

/-- `_read_mentioned_files`: mention → content for mentions that resolve to
readable files, in mention order. -/
def readMentionedFiles (env : Env) (mentions : List String) (cwd : String) :
    List (String × String) :=
  mentions.filterMap (fun m =>
    (alistGet env.files (resolveMention cwd m)).map (fun c => (m, c)))

/-- `_filter_valid_mentions`. -/
def filterValidMentions (env : Env) (mentions : List String) (cwd : String) :
    List String :=
  mentions.filter (fun m => (alistGet env.files (resolveMention cwd m)).isSome)

/-- `_has_documentation_references`. -/
def hasDocumentationReferences (files : List (String × String)) : Bool :=
  files.any (fun p => !(IGNORED_DOC_FILES.contains (basename p.1)))

/-- The deduplicated `@`-mention collection over all user messages
(the `seen`-set loop in `handle`). -/
def collectAllMentions (messages : List PyVal) : List String :=
  dedupFirst ((extractAllUserMessages messages).flatMap extractMentions)

/-- `_build_user_prompt`. -/
def buildUserPrompt (firstUser lastUser lastAssistant : Option String)
    (files : List (String × String)) : String :=
  let fu := stripStr (firstUser.getD "")
  let fu := if fu = "" then "[No user message found]" else fu
  let parts := ["=== ORIGINAL INTENT ===", fu]
  let parts :=
    if files.isEmpty then parts
    else
      parts ++ ["\n=== REFERENCED FILES ==="] ++
        files.flatMap (fun p =>
          ["\n--- @" ++ p.1 ++ " ---",
           if p.2.length > 10000 then takeStr 10000 p.2 ++ "\n... [truncated]" else p.2])
  let lu := stripStr (lastUser.getD "")
  let la := stripStr (lastAssistant.getD "")
  let parts :=
    if lu ≠ "" && lu ≠ fu then parts ++ ["\n=== RECENT EXCHANGE ===", "User: " ++ lu]
    else parts
  let parts :=
    if la ≠ "" then
      (if lu = "" || lu = fu then parts ++ ["\n=== RECENT EXCHANGE ==="] else parts)
        ++ ["Assistant: " ++ la]
    else parts
  let result := joinStr "\n" parts
  if stripStr result = "" then "[No context available]" else result

/-- Append `\n\nReferenced documents: @a, @b` when the list is nonempty. -/
def withRefsSuffix (message : String) (mentions : List String) : String :=
  if mentions.isEmpty then message
  else message ++ "\n\nReferenced documents: " ++
    joinStr ", " (mentions.map (fun m => "@" ++ m))

/-- Is the provider present and configured? (`self.llm_provider and
self.llm_provider.is_configured()`). -/
def providerConfigured (provider : Option ProviderEnv) : Bool :=
  match provider with
  | some p => p.configured
  | Option.none => false

/-- The deterministic pre-LLM check of `StopHook.handle`: run the
permission-seeking patterns on the last assistant text when one is present
and non-empty (`if last_assistant:` — an empty extracted text skips the
check). -/
def stopPrecheck (messages : List PyVal) : Option String :=
  match extractLastAssistant messages with
  | some t => if t ≠ "" then checkPermissionSeeking t else Option.none
  | Option.none => Option.none

/-- The `AttributeError` raised by `if self.tracer:` right after the Stop
LLM call: `Hook.__init__` never sets a `tracer` attribute and no class
attribute exists, so the read fails on every constructible instance. -/
def stopTracerError : PyExn :=
  ⟨"AttributeError: \x27StopHook\x27 object has no attribute \x27tracer\x27"⟩

/-- `StopHook.handle`. Raised exceptions are propagated as `Except.error`:
the unguarded LLM call, and — whenever that call returns — the unbound
`self.tracer` read that directly follows it, which makes the decision
handling written below it (the kill/allow/block branches) unreachable. -/
def stopHandle (inp : HookInput) (env : Env) : Except PyExn HookResult :=
  let messages := if inp.transcriptPath = "" then [] else env.transcript
  if messages.isEmpty then
    .ok (HookResult.mkBlock "Great work! Keep going.")
  else
    match stopPrecheck messages with
    | some blockReason =>
      let allMentions := collectAllMentions messages
      let validMentions := filterValidMentions env allMentions inp.cwd
      let message :=
        "Stick to the plan. Do it right. The reward at the end is worth it.\n\nBlocked: "
          ++ blockReason
      .ok (HookResult.mkBlock (withRefsSuffix message validMentions))
    | Option.none =>
      let allMentions := collectAllMentions messages
      let files := readMentionedFiles env allMentions inp.cwd
      let hasDocs := hasDocumentationReferences files
      let interactiveMode := !hasDocs
      if !providerConfigured env.provider then
        let validMentions := filterValidMentions env allMentions inp.cwd
        .ok (HookResult.mkBlock (withRefsSuffix "Great work! Keep going." validMentions))
      else
        match (env.provider.map ProviderEnv.stopResp).getD (.error ⟨"no provider"⟩) with
        | .error e => .error e
        | .ok _content =>
          -- the source next runs `if self.tracer:`, an attribute read that
          -- raises on every constructible instance; the decision handling
          -- below it in the source never executes
          .error stopTracerError

/-! ## Hook configuration (`config.py` fields the pipelines read, with the
`getattr(..., default)` fallbacks of the call sites) -/

structure Config where
  stopEnabled : Bool := true
  preToolEnabled : Bool := true
  toolFailureEnabled : Bool := true
  preCompactEnabled : Bool := true
  categories : Option (List (String × Bool)) :=
    some [("ci_bypass", true), ("destructive_git", true), ("branch_switching", true),
          ("interactive_git", true), ("dangerous_files", true), ("git_history", true),
          ("credential_access", true)]
  llmFallback : String := "block"
  confidenceThreshold : String := "medium"
  injectGitContext : Bool := true
  quoteContextFiles : Bool := true

/-! ## `hooks/pre_tool.py` -/

/-- `PROTECTED_FILE_PATTERNS` (pattern, block reason); matched
case-sensitively (`re.search` without flags). -/
def PROTECTED_FILE_PATTERNS : List (String × String) :=
  [ ("(?:^|/)\\.git/hooks/", "Do not modify git hooks. Fix the code, not the safety net."),
    ("pre-commit", "Do not touch pre-commit. Fix the code, not the safety net."),
    ("(?:^|/)\\.github/workflows/",
     "Do not modify CI workflows. Fix the code, not the pipeline.") ]

/-- The value collection of `_check_protected_paths`: every top-level string
value of the tool input, and every string element of a top-level list value. -/
def collectToolInputStrings (toolInput : List (String × PyVal)) : List String :=
  toolInput.flatMap (fun p =>
    match p.2 with
    | .str s => [s]
    | .list items =>
      items.filterMap (fun it =>
        match it with
        | .str s => some s
        | _ => Option.none)
    | _ => [])

/-- `_check_protected_paths`: the first collected value matching any
protected pattern blocks with that pattern's reason. -/
def checkProtectedPaths (toolInput : List (String × PyVal)) : Option HookResult :=
  (collectToolInputStrings toolInput).findSome? (fun value =>
    (PROTECTED_FILE_PATTERNS.findSome? (fun pr =>
      if research false pr.1 value then some pr.2 else Option.none)).map
      HookResult.mkBlock)

/-- `PreToolHook.handle`. Total: `check_command` and `classify_command` are
pure and the classifier catches its own LLM exceptions. -/
def preToolHandle (inp : HookInput) (env : Env) (cfg : Config) : HookResult :=
  match checkProtectedPaths inp.toolInput with
  | some r => r
  | Option.none =>
    if inp.toolName ≠ "Bash" then HookResult.mkAllow "Not a Bash command"
    else
      let command := pyGetStr (.dict inp.toolInput) "command" ""
      let checked := check_command command cfg.categories
      if checked.1 then HookResult.mkBlock checked.2
      else if needs_llm_classification command then
        let result := classify_command env.provider cfg.llmFallback
        if result.is_blocked then HookResult.mkBlock result.message
        else HookResult.mkAllow result.reason
      else HookResult.mkAllow "Command allowed"

/-! ## `hooks/tool_failure.py` -/

/-- `_extract_error`. -/
def extractError (toolResponse : PyVal) : String :=
  match toolResponse with
  | .str s => s
  | .dict d =>
    match ["error", "stderr", "message", "output"].findSome? (fun k =>
        (alistGet d k).map (fun v =>
          match v with
          | .str s => s
          | v => pyRepr v)) with
    | some s => s
    | Option.none => pyRepr (.dict d)
  | v => pyRepr v

/-- The `AttributeError` raised by `if self.tracer:` right after the
ToolFailure LLM call (same unbound attribute as in the Stop hook). -/
def toolFailureTracerError : PyExn :=
  ⟨"AttributeError: \x27ToolFailureHook\x27 object has no attribute \x27tracer\x27"⟩

/-- `ToolFailureHook.handle`. The unguarded LLM call propagates exceptions;
whenever it returns, the unbound `self.tracer` read that follows it raises,
so the confidence-threshold/hint code below it never executes. -/
def toolFailureHandle (inp : HookInput) (env : Env) (cfg : Config) :
    Except PyExn HookResult :=
  let errorOutput := extractError inp.toolResponse
  if stripStr errorOutput = "" then .ok (HookResult.mkAllow "No error output")
  else if !providerConfigured env.provider then
    .ok (HookResult.withContext
      ("[HINT (low)]: Check command syntax and try again! " ++
       "(Note: Configure LLM in ~/.bdb/config.yaml for smarter hints)"))
  else
    match (env.provider.map ProviderEnv.failResp).getD (.error ⟨"no provider"⟩) with
    | .error e => .error e
    | .ok _content =>
      -- the source next runs `if self.tracer:`, which raises on every
      -- constructible instance; the confidence handling below never executes
      .error toolFailureTracerError

/-! ## `hooks/pre_compact.py` -/

def DEFAULT_CONTEXT_FILES : List String := ["CLAUDE.md", "AGENTS.md", "README.md"]

def MAX_QUOTE_LENGTH : Nat := 10000

/-- `_read_branch_from_head` applied to an optional HEAD content
(`Option.none` = unreadable, the `except OSError` branch). -/
def readBranchFromHead (headContent : Option String) : List (String × String) :=
  match headContent with
  | Option.none => []
  | some c =>
    let c := stripStr c
    if startsWithStr c "ref: refs/heads/" then [("branch", dropStr 16 c)]
    else if startsWithStr c "ref:" then [("branch", stripStr (dropStr 4 c))]
    else [("branch", "(detached at " ++ takeStr 8 c ++ ")")]

/-- Python `Path(p).parent` for the absolute paths exercised. -/
def parentPath (p : String) : String :=
  let parts := splitSlash p
  if parts.length ≤ 1 then "." else joinStr "/" parts.dropLast

/-- `_resolve_worktree_path`: the worktree root is the parent of the path
stored in the `gitdir` file (absolute in the exercised layouts). -/
def resolveWorktreePath (gitdirContent : Option String) : Option String :=
  gitdirContent.map (fun t => parentPath (stripStr t))

/-- Result of scanning worktree names against the transcript text. -/
inductive WtScan where
  | nothing
  | single (wt : WorktreeEntry)
  | ambiguous

/-- The name-matching loop of `_match_worktree_from_transcript`: first match
is remembered, a second match is ambiguous. -/
def scanWorktrees : List WorktreeEntry → String → Option WorktreeEntry → WtScan
  | [], _, Option.none => .nothing
  | [], _, some wt => .single wt
  | wt :: rest, t, acc =>
    if strContainsSub t wt.name then
      match acc with
      | some _ => .ambiguous
      | Option.none => scanWorktrees rest t (some wt)
    else scanWorktrees rest t acc

/-- `_match_worktree_from_transcript`: `Option.none` = no worktrees exist or
no match (use the main repo); `some []` = ambiguous (omit identity);
`some ctx` = the matched worktree's branch/path. -/
def matchWorktreeFromTranscript (env : Env) : Option (List (String × String)) :=
  let candidates := env.worktrees.filter (fun wt => wt.headContent.isSome)
  if candidates.isEmpty then Option.none
  else
    match env.transcriptText with
    | Option.none => Option.none
    | some transcriptText =>
      match scanWorktrees candidates transcriptText Option.none with
      | .nothing => Option.none
      | .ambiguous => some []
      | .single wt =>
        some (readBranchFromHead wt.headContent ++
          (match resolveWorktreePath wt.gitdirContent with
           | some p => [("worktree_path", p)]
           | Option.none => []))

/-- The `.git`-is-a-directory branch of `_get_git_context` (a primary
checkout: try the transcript-matched worktree, else the main HEAD). -/
def getGitContextMainRepo (env : Env) : List (String × String) :=
  match matchWorktreeFromTranscript env with
  | some ctx => ctx
  | Option.none => readBranchFromHead env.mainHead

/-- `_get_git_context`, dispatching on what the walk-up found. -/
def getGitContext (env : Env) : List (String × String) :=
  match env.gitState with
  | .noRepo => []
  | .linked wtPath headContent =>
    [("worktree_path", wtPath)] ++ readBranchFromHead headContent
  | .primary => getGitContextMainRepo env

/-- `_find_default_files`. -/
def findDefaultFiles (env : Env) (cwd : String) : List String :=
  DEFAULT_CONTEXT_FILES.filter (fun f => (alistGet env.files (joinPath cwd f)).isSome)

/-- `_read_context_files` with the `MAX_QUOTE_LENGTH` truncation. -/
def readContextFiles (env : Env) (cwd : String) (filenames : List String) :
    List (String × String) :=
  filenames.filterMap (fun f =>
    (alistGet env.files (joinPath cwd f)).map (fun text =>
      (f, if text.length > MAX_QUOTE_LENGTH
          then takeStr MAX_QUOTE_LENGTH text ++ "\n... [truncated]" else text)))

/-- `_get_user_content` (the pre-compact variant, without the legacy
`human` shape). -/
def getUserContent (msg : PyVal) : Option String :=
  if pyIsStr (msg.get "type") "user" then
    match msg.get "message" with
    | some (.dict inner) =>
      match alistGet inner "content" with
      | some (.str s) => some s
      | some (.list blocks) => some (textFromBlocks blocks)
      | some _ => Option.none
      | Option.none => some ""
    | some (.str s) => some s
    | _ => Option.none
  else if pyIsStr (msg.get "role") "user" then
    match msg.get "content" with
    | some (.list blocks) => some (textFromBlocks blocks)
    | some (.str s) => some s
    | Option.none => some ""
    | _ => Option.none
  else Option.none

/-- `_extract_user_refs`: deduplicated first-mention-ordered `@`-references
over all user messages of the transcript, kept whether or not the files
exist. -/
def extractUserRefs (env : Env) (transcriptPath : String) : List String :=
  if transcriptPath = "" then []
  else dedupFirst ((env.transcript.filterMap getUserContent).flatMap extractMentions)

/-- `_build_context_reminder`. -/
def buildContextReminder (files : List String) (userRefs : List String)
    (gitContext : List (String × String)) (fileContents : List (String × String)) :
    String :=
  let parts : List String := []
  let parts :=
    if gitContext.isEmpty then parts
    else
      let ctx : List String :=
        (match alistGet gitContext "branch" with
         | some b => ["Branch: " ++ b]
         | Option.none => []) ++
        (match alistGet gitContext "worktree_path" with
         | some w => ["Worktree: " ++ w]
         | Option.none => [])
      if ctx.isEmpty then parts else parts ++ [joinStr " | " ctx]
  let parts :=
    if files.isEmpty then parts
    else
      let quoted := files.filter (fun f => (alistGet fileContents f).isSome)
      let unquoted := files.filter (fun f => !(alistGet fileContents f).isSome)
      let parts :=
        if unquoted.isEmpty then parts
        else parts ++ ["Context: " ++ joinStr ", " unquoted]
      parts ++ quoted.filterMap (fun f =>
        (alistGet fileContents f).map (fun content =>
          "\n--- " ++ f ++ " ---\n" ++ content))
  let parts :=
    if userRefs.isEmpty then parts
    else parts ++ ["Refs: " ++ joinStr ", " ((userRefs.take 20).map (fun r => "@" ++ r))]
  joinStr "\n" parts

/-- `PreCompactHook.handle`. -/
def preCompactHandle (inp : HookInput) (env : Env) (cfg : Config) : HookResult :=
  let gitContext := if cfg.injectGitContext then getGitContext env else []
  let contextFiles := findDefaultFiles env inp.cwd
  let fileContents :=
    if cfg.quoteContextFiles && !contextFiles.isEmpty
    then readContextFiles env inp.cwd contextFiles else []
  let userRefs := extractUserRefs env inp.transcriptPath
  if contextFiles.isEmpty && userRefs.isEmpty && gitContext.isEmpty then
    HookResult.mkAllow "No context to preserve"
  else
    HookResult.withContext
      (buildContextReminder contextFiles userRefs gitContext fileContents)

/-! ## `supervisor.py` -/

inductive HookKind where
  | stop | preTool | toolFailure | preCompact
  deriving DecidableEq

/-- The `TypeError` raised when `get_hook` constructs a hook: it passes
`tracer=tracer`, a keyword `Hook.__init__` (hooks/base.py) does not accept,
and no hook class overrides `__init__`. -/
def hookConstructionError : PyExn :=
  ⟨"TypeError: Hook.__init__() got an unexpected keyword argument \x27tracer\x27"⟩

/-- `get_hook`: resolve the event name and honour the per-hook `enabled`
flag; `.ok Option.none` is the source's `None` (unknown event or disabled
hook). For a known, enabled event the source then constructs the hook with
the rejected `tracer=` keyword, so instead of ever producing a hook it
raises `TypeError`. -/
def getHook (eventName : String) (cfg : Config) : Except PyExn (Option HookKind) :=
  if eventName = "Stop" then
    if cfg.stopEnabled then .error hookConstructionError else .ok Option.none
  else if eventName = "PreToolUse" then
    if cfg.preToolEnabled then .error hookConstructionError else .ok Option.none
  else if eventName = "PostToolUseFailure" then
    if cfg.toolFailureEnabled then .error hookConstructionError else .ok Option.none
  else if eventName = "PreCompact" then
    if cfg.preCompactEnabled then .error hookConstructionError else .ok Option.none
  else .ok Option.none

/-- Run the selected pipeline; total pipelines are wrapped in `.ok`. -/
def runHook (k : HookKind) (inp : HookInput) (env : Env) (cfg : Config) :
    Except PyExn HookResult :=
  match k with
  | .stop => stopHandle inp env
  | .preTool => .ok (preToolHandle inp env cfg)
  | .toolFailure => toolFailureHandle inp env cfg
  | .preCompact => .ok (preCompactHandle inp env cfg)

/-- `Supervisor.handle`: pause check, interactive-mode short-circuit for
Stop, then the `get_hook` call — which sits outside the `try`/`except`
boundary, so its construction `TypeError` propagates to the caller as
`.error`. The `try` region that would catch a pipeline exception and
convert it to Allow is kept (the `.ok (some k)` arm) but is unreachable in
the staged source: `getHook` never returns a hook. -/
def supervisorHandle (inp : HookInput) (env : Env) (cfg : Config) :
    Except PyExn HookResult :=
  if env.paused then .ok (HookResult.mkAllow "BDB is paused")
  else if inp.eventName = "Stop" && env.mode == Mode.interactive then
    .ok (HookResult.mkAllow "Interactive mode")
  else
    match getHook inp.eventName cfg with
    | .error e => .error e
    | .ok Option.none => .ok (HookResult.mkAllow ("No handler for " ++ inp.eventName))
    | .ok (some k) =>
      match runHook k inp env cfg with
      | .ok result => .ok result
      | .error e => .ok (HookResult.mkAllow ("Hook failed: " ++ e.msg))

/-! ## Supporting lemmas -/

theorem alistGet_mem {α : Type} {d : List (String × α)} {k : String} {v : α}
    (h : alistGet d k = some v) : ∃ p ∈ d, p.2 = v := by
  unfold alistGet at h
  cases hf : d.find? (fun p => p.1 == k) with
  | none => rw [hf] at h; cases h
  | some p =>
    rw [hf] at h
    exact ⟨p, List.mem_of_find?_eq_some hf, by injection h⟩

theorem foldl_enabledStep_mem :
    ∀ (l : List (String × Bool)) (acc : List SafetyPattern) (sp : SafetyPattern),
      sp ∈ l.foldl enabledStep acc →
      sp ∈ acc ∨ sp ∈ SAFETY_CATEGORIES.flatMap Prod.snd := by
  intro l
  induction l with
  | nil => intro acc sp h; exact .inl h
  | cons p rest ih =>
    intro acc sp h
    rw [List.foldl_cons] at h
    rcases ih (enabledStep acc p) sp h with h' | h'
    · unfold enabledStep at h'
      by_cases hb : p.2
      · rw [if_pos hb] at h'
        cases hget : alistGet SAFETY_CATEGORIES p.1 with
        | none => rw [hget] at h'; exact .inl h'
        | some ps =>
          rw [hget] at h'
          rcases List.mem_append.mp h' with h'' | h''
          · exact .inl h''
          · obtain ⟨q, hq, hqv⟩ := alistGet_mem hget
            exact .inr (List.mem_flatMap.mpr ⟨q, hq, hqv ▸ h''⟩)
      · rw [if_neg hb] at h'; exact .inl h'
    · exact .inr h'

theorem mem_get_enabled_patterns {sp : SafetyPattern} {cats : List (String × Bool)}
    (h : sp ∈ get_enabled_patterns cats) :
    sp ∈ SAFETY_CATEGORIES.flatMap Prod.snd := by
  rcases foldl_enabledStep_mem cats [] sp h with h' | h'
  · cases h'
  · exact h'

theorem safety_reasons_nonempty :
    ∀ sp ∈ SAFETY_CATEGORIES.flatMap Prod.snd, sp.reason ≠ "" := by decide

/-! ## Claims -/

/-- C1: for every command and enabled-categories map, `check_command`
returns allowed with an empty reason when the command matches an override
allow-list pattern; otherwise the first matching rule among the enabled
categories blocks with that rule's reason, which is non-empty; with no
match it returns allowed with an empty reason. -/
theorem check_command_spec (cmd : String) (cats : List (String × Bool)) :
    (matchesAllowed cmd = true → check_command cmd (some cats) = (false, "")) ∧
    (matchesAllowed cmd = false →
      (∀ sp, (get_enabled_patterns cats).find?
          (fun sp => research true sp.pattern cmd) = some sp →
        check_command cmd (some cats) = (true, sp.reason) ∧ sp.reason ≠ "") ∧
      ((get_enabled_patterns cats).find?
          (fun sp => research true sp.pattern cmd) = none →
        check_command cmd (some cats) = (false, ""))) := by
  refine ⟨fun h => ?_, fun h => ⟨fun sp hsp => ?_, fun hn => ?_⟩⟩
  · unfold check_command
    rw [h]
    rfl
  · refine ⟨?_, safety_reasons_nonempty sp
      (mem_get_enabled_patterns (List.mem_of_find?_eq_some hsp))⟩
    unfold check_command
    simp [h, hsp]
  · unfold check_command
    simp [h, hn]

/-- C1 witness: `git reset --hard` with the default categories is not
allow-listed; the first matching rule is the `destructive_git` one and its
reason is returned. -/
theorem check_command_spec_witness :
    check_command "git reset --hard"
        (some [("ci_bypass", true), ("destructive_git", true)]) =
      (true, "NO. git reset --hard destroys work. Ask the user first.") ∧
    ("NO. git reset --hard destroys work. Ask the user first." : String) ≠ "" := by
  have h := (check_command_spec "git reset --hard"
    [("ci_bypass", true), ("destructive_git", true)]).2 (by decide)
  exact h.1 ⟨"git\\s+reset\\s+--hard",
    "NO. git reset --hard destroys work. Ask the user first.",
    "destructive_git"⟩ (by decide)

/-- C4 counterexample: `rm -rf node_modules/` matches the needs-LLM list
(`rm -rf` with any path) and also the always-allowed list, so the two lists
are not disjoint, and `needs_llm_classification` returns `false` on a
command matching the needs-LLM list. -/
theorem needs_llm_lists_overlap :
    NEEDS_LLM_PATTERNS.any (fun pat => research true pat "rm -rf node_modules/") = true ∧
    ALWAYS_ALLOWED_PATTERNS.any (fun pat => research true pat "rm -rf node_modules/") = true ∧
    needs_llm_classification "rm -rf node_modules/" = false := by
  exact ⟨by decide, by decide, by decide⟩

/-- C4 (amended): the always-allowed list short-circuits to `false`; for a
command not on the always-allowed list, `needs_llm_classification` returns
exactly whether the needs-LLM list matches. The two lists overlap (safe
cleanup commands match both), with the always-allowed list taking
precedence. -/
theorem needs_llm_two_tier (cmd : String) :
    (ALWAYS_ALLOWED_PATTERNS.any (fun pat => research true pat cmd) = true →
      needs_llm_classification cmd = false) ∧
    (ALWAYS_ALLOWED_PATTERNS.any (fun pat => research true pat cmd) = false →
      needs_llm_classification cmd =
        NEEDS_LLM_PATTERNS.any (fun pat => research true pat cmd)) := by
  unfold needs_llm_classification
  constructor <;> intro h <;> simp [h]

/-- C4 (amended) witness: `rm -rf .` is not always-allowed and needs LLM
classification; `rm -rf node_modules/` is always-allowed and does not. -/
theorem needs_llm_two_tier_witness :
    needs_llm_classification "rm -rf ." = true ∧
    needs_llm_classification "rm -rf node_modules/" = false := by
  have h1 := (needs_llm_two_tier "rm -rf .").2 (by decide)
  have h2 := (needs_llm_two_tier "rm -rf node_modules/").1 (by decide)
  exact ⟨by rw [h1]; decide, h2⟩

theorem checkProtectedPaths_block {ti : List (String × PyVal)} {r : HookResult}
    (h : checkProtectedPaths ti = some r) : r.decision = .block := by
  unfold checkProtectedPaths at h
  obtain ⟨v, _, hfv⟩ := List.exists_of_findSome?_eq_some h
  cases hinner : PROTECTED_FILE_PATTERNS.findSome?
      (fun pr => if research false pr.1 v then some pr.2 else Option.none) with
  | none => rw [hinner] at hfv; cases hfv
  | some m =>
    rw [hinner] at hfv
    have : HookResult.mkBlock m = r := by injection hfv
    rw [← this]
    rfl

/-- C8: the protected-path guard inspects exactly the top-level string
values and the string elements of top-level list values of the tool input:
when none of those match a protected pattern and the tool is not the shell
tool, the pipeline allows — a protected path occurring only inside a nested
dictionary value is not seen. -/
theorem pretool_nested_dict_not_inspected (inp : HookInput) (env : Env) (cfg : Config)
    (hname : inp.toolName ≠ "Bash")
    (hclean : ∀ s ∈ collectToolInputStrings inp.toolInput,
      ∀ pr ∈ PROTECTED_FILE_PATTERNS, research false pr.1 s = false) :
    preToolHandle inp env cfg = HookResult.mkAllow "Not a Bash command" := by
  have hnone : checkProtectedPaths inp.toolInput = Option.none := by
    unfold checkProtectedPaths
    rw [List.findSome?_eq_none_iff]
    intro v hv
    have hin : PROTECTED_FILE_PATTERNS.findSome?
        (fun pr => if research false pr.1 v then some pr.2 else Option.none) =
        Option.none := by
      rw [List.findSome?_eq_none_iff]
      intro pr hpr
      simp [hclean v hv pr hpr]
    rw [hin]
    rfl
  unfold preToolHandle
  rw [hnone]
  simp [hname]

/-- C8 witness: a non-shell tool whose only protected-path occurrence sits
inside a nested dictionary value is allowed, although the same string does
match a protected pattern. -/
theorem pretool_nested_dict_witness :
    preToolHandle
      { toolName := "Task",
        toolInput := [("metadata", .dict [("path", .str ".git/hooks/pre-commit")])] }
      {} {} = HookResult.mkAllow "Not a Bash command" ∧
    research false "(?:^|/)\\.git/hooks/" ".git/hooks/pre-commit" = true := by
  refine ⟨pretool_nested_dict_not_inspected _ {} {} (by decide) ?_, by decide⟩
  intro s hs
  have hempty : collectToolInputStrings
      [("metadata", PyVal.dict [("path", PyVal.str ".git/hooks/pre-commit")])] = [] := rfl
  rw [hempty] at hs
  cases hs

/-- C9: only the Stop pipeline can kill. The PreTool pipeline decides only
Allow or Block; the PreCompact pipeline always decides Allow (possibly with
injected context); the ToolFailure pipeline, whenever it returns normally,
decides Allow. -/
theorem pipelines_decision_range (inp : HookInput) (env : Env) (cfg : Config) :
    ((preToolHandle inp env cfg).decision = .allow ∨
     (preToolHandle inp env cfg).decision = .block) ∧
    (preCompactHandle inp env cfg).decision = .allow ∧
    (∀ r, toolFailureHandle inp env cfg = .ok r → r.decision = .allow) := by
  refine ⟨?_, ?_, ?_⟩
  · cases hcp : checkProtectedPaths inp.toolInput with
    | some r =>
      unfold preToolHandle
      rw [hcp]
      exact .inr (checkProtectedPaths_block hcp)
    | none =>
      unfold preToolHandle
      rw [hcp]
      dsimp only
      split_ifs <;> first | (left; rfl) | (right; rfl)
  · unfold preCompactHandle
    dsimp only
    split_ifs <;> rfl
  · intro r h
    unfold toolFailureHandle at h
    dsimp only at h
    split_ifs at h
    · injection h with h'; subst h'; rfl
    · injection h with h'; subst h'; rfl
    · split at h
      · cases h
      · cases h

/-- C9 witness: a shell `git status` is allowed by PreTool; a PreCompact run
with no context allows; a tool failure with empty error output returns
normally with an Allow. -/
theorem pipelines_decision_range_witness :
    ((preToolHandle { toolName := "Bash", toolInput := [("command", .str "git status")] } {} {}).decision = .allow ∨
     (preToolHandle { toolName := "Bash", toolInput := [("command", .str "git status")] } {} {}).decision = .block) ∧
    (preCompactHandle {} {} {}).decision = .allow ∧
    (HookResult.mkAllow "No error output").decision = .allow := by
  have h := pipelines_decision_range
    { toolName := "Bash", toolInput := [("command", .str "git status")] } {} {}
  refine ⟨h.1, ?_, ?_⟩
  · exact (pipelines_decision_range {} {} {}).2.1
  · exact (pipelines_decision_range { toolResponse := .str "" } {} {}).2.2
      (HookResult.mkAllow "No error output") rfl

/-- The per-event `enabled` flag `get_hook` consults (vacuously `true` for
unknown events, which have no hook at all). -/
def hookEnabledFlag (eventName : String) (cfg : Config) : Bool :=
  if eventName = "Stop" then cfg.stopEnabled
  else if eventName = "PreToolUse" then cfg.preToolEnabled
  else if eventName = "PostToolUseFailure" then cfg.toolFailureEnabled
  else if eventName = "PreCompact" then cfg.preCompactEnabled
  else true

/-- C10: an event whose kind is none of Stop, PreToolUse,
PostToolUseFailure, PreCompact, or whose matching hook is disabled in
configuration, resolves to no pipeline (`get_hook` returns `None` before
the defective hook construction) and `Supervisor.handle` returns normally
with an Allow decision. -/
theorem supervisor_no_handler_allows (inp : HookInput) (env : Env) (cfg : Config)
    (h : inp.eventName ∉ ["Stop", "PreToolUse", "PostToolUseFailure", "PreCompact"] ∨
         hookEnabledFlag inp.eventName cfg = false) :
    getHook inp.eventName cfg = .ok Option.none ∧
    ∃ r, supervisorHandle inp env cfg = .ok r ∧ r.decision = .allow := by
  have hg : getHook inp.eventName cfg = .ok Option.none := by
    rcases h with h | h
    · simp only [List.mem_cons, List.not_mem_nil, or_false] at h
      push_neg at h
      obtain ⟨h1, h2, h3, h4⟩ := h
      unfold getHook
      simp [h1, h2, h3, h4]
    · unfold hookEnabledFlag at h
      unfold getHook
      split_ifs at h ⊢ <;> simp_all
  refine ⟨hg, ?_⟩
  unfold supervisorHandle
  split_ifs
  · exact ⟨_, rfl, rfl⟩
  · exact ⟨_, rfl, rfl⟩
  · rw [hg]
    exact ⟨_, rfl, rfl⟩

/-- C10 witness: a `SessionStart` event has no pipeline and is allowed, as
is a `Stop` event when the Stop hook is disabled. -/
theorem supervisor_no_handler_allows_witness :
    (getHook "SessionStart" {} = .ok Option.none ∧
      ∃ r, supervisorHandle { eventName := "SessionStart" } {} {} = .ok r ∧
        r.decision = .allow) ∧
    (getHook "Stop" { stopEnabled := false } = .ok Option.none ∧
      ∃ r, supervisorHandle { eventName := "Stop" } {} { stopEnabled := false } = .ok r ∧
        r.decision = .allow) := by
  constructor
  · exact supervisor_no_handler_allows { eventName := "SessionStart" } {} {}
      (.inl (by decide))
  · exact supervisor_no_handler_allows { eventName := "Stop" } {} { stopEnabled := false }
      (.inr (by decide))

/-- C2 divergence (code bug): for every dispatchable event (known kind,
hook enabled, not paused, not the interactive-mode Stop short-circuit) the
supervisor never reaches its `try`/`except` boundary — hook construction in
`get_hook` raises `TypeError` first (the `tracer=` keyword is not accepted
by `Hook.__init__`), outside that boundary, and `Supervisor.handle`
propagates the exception to its caller instead of converting anything to
Allow. Exhibited on all four known event kinds with the default
configuration and environment. -/
theorem supervisor_dispatch_raises :
    supervisorHandle { eventName := "Stop" } {} {} = .error hookConstructionError ∧
    supervisorHandle { eventName := "PreToolUse" } {} {} = .error hookConstructionError ∧
    supervisorHandle { eventName := "PostToolUseFailure" } {} {} =
      .error hookConstructionError ∧
    supervisorHandle { eventName := "PreCompact" } {} {} =
      .error hookConstructionError := by
  exact ⟨rfl, rfl, rfl, rfl⟩

/-- C3 (amended): whenever the Stop pipeline reaches LLM arbitration and
the call returns a structured response — whatever decision and reason it
carries, `allow` included — the pipeline raises `AttributeError` on the
unbound `tracer` attribute immediately after the call, before examining
the decision. No Allow (and no decision at all) is ever returned from
arbitration; the allow-as-is return, and the documentation-mode override
written below it in the source, are unreachable. -/
theorem stop_arbitration_raises (inp : HookInput) (env : Env) (p : ProviderEnv)
    (content : List (String × PyVal))
    (hpath : inp.transcriptPath ≠ "")
    (hmsgs : env.transcript ≠ [])
    (hpre : stopPrecheck env.transcript = Option.none)
    (hp : env.provider = some p)
    (hconf : p.configured = true)
    (hresp : p.stopResp = .ok content) :
    stopHandle inp env = .error stopTracerError := by
  unfold stopHandle
  simp [hpath, List.isEmpty_iff, hmsgs, hpre, hp, providerConfigured, hconf, hresp]

/-- The structured stop response `{decision: allow, reason: ok}` used by the
C3 counterexample and witness. -/
def contentAllowOk : List (String × PyVal) :=
  [("decision", .str "allow"), ("reason", .str "ok"), ("message", .str "")]

def provAllowOk : ProviderEnv :=
  { configured := true, stopResp := .ok contentAllowOk,
    classifyResp := .error ⟨"x"⟩, failResp := .error ⟨"x"⟩ }

def inpStopDoc : HookInput := { eventName := "Stop", transcriptPath := "/t", cwd := "/w" }

/-- A documentation-mode session: the user referenced `@docs/plan.md`, the
file exists, and the last assistant text trips no evasion pattern. -/
def envStopDoc : Env :=
  { transcript := [ .dict [("role", .str "user"), ("content", .str "follow @docs/plan.md")],
      .dict [("role", .str "assistant"), ("content", .str "Stopping now.")] ],
    files := [("/w/docs/plan.md", "the plan")],
    provider := some provAllowOk }

/-- C3 counterexample: the LLM answered `allow` with reason `ok`, but the
pipeline raises the tracer `AttributeError` instead of returning that
Allow, so the claim "allow is returned as-is for every transcript and
reason" is false. -/
theorem stop_allow_not_returned_counterexample :
    pyGetStr (.dict contentAllowOk) "decision" "block" = "allow" ∧
    pyGetStr (.dict contentAllowOk) "reason" "" = "ok" ∧
    stopHandle inpStopDoc envStopDoc = .error stopTracerError ∧
    stopHandle inpStopDoc envStopDoc ≠ .ok (HookResult.mkAllow "ok") := by
  refine ⟨rfl, rfl, rfl, ?_⟩
  intro hc
  have h3 : stopHandle inpStopDoc envStopDoc = .error stopTracerError := rfl
  rw [h3] at hc
  exact Except.noConfusion hc

/-- C3 (amended) witness: concrete instantiation at the session whose LLM
allows with reason `ok` — arbitration is reached and the pipeline raises. -/
theorem stop_arbitration_raises_witness :
    stopHandle inpStopDoc envStopDoc = .error stopTracerError := by
  exact stop_arbitration_raises inpStopDoc envStopDoc provAllowOk contentAllowOk
    (by decide) (List.cons_ne_nil _ _) rfl rfl rfl rfl

/-- The repository's own regression test transcript for "no extractable
assistant text": one user task, then an assistant turn with only a
`tool_use` block. -/
def trToolUseOnly : List PyVal :=
  [ .dict [("type", .str "user"), ("message", .dict [("role", .str "user"),
      ("content", .str "execute the plan @docs/plan.md")])],
    .dict [("type", .str "assistant"), ("message", .dict [("role", .str "assistant"),
      ("content", .list [.dict [("type", .str "tool_use"), ("name", .str "Bash")]])])] ]

def provAllowDone : ProviderEnv :=
  { configured := true,
    stopResp := .ok [("decision", .str "allow"), ("reason", .str "all good"),
      ("message", .str "")],
    classifyResp := .error ⟨"x"⟩, failResp := .error ⟨"x"⟩ }

def inpStopNoText : HookInput :=
  { eventName := "Stop", transcriptPath := "/t", cwd := "/tmp" }

def envStopNoText : Env :=
  { transcript := trToolUseOnly, provider := some provAllowDone }

/-- C5 divergence (code bug): with no extractable assistant text (the
extraction yields the empty string, so the precheck is skipped) and an LLM
configured, the pipeline does not block terminally — it proceeds to LLM
arbitration (the `.error stopTracerError` outcome arises only on the
unbound-tracer read that follows a completed LLM call), contradicting the
spec and the repository's own test `test_no_assistant_text_blocks` (which
asserts Block with the LLM never called). -/
theorem stop_no_text_divergence :
    extractLastAssistant trToolUseOnly = some "" ∧
    stopPrecheck trToolUseOnly = Option.none ∧
    providerConfigured envStopNoText.provider = true ∧
    stopHandle inpStopNoText envStopNoText = .error stopTracerError := by
  exact ⟨rfl, rfl, rfl, rfl⟩

theorem isPre_refl (n : List Char) : isPre n n = true := by
  induction n with
  | nil => rfl
  | cons c cs ih => simp [isPre, ih]

theorem isPre_extend {n h : List Char} (post : List Char) (hp : isPre n h = true) :
    isPre n (h ++ post) = true := by
  induction n generalizing h with
  | nil => rfl
  | cons c cs ih =>
    cases h with
    | nil => cases hp
    | cons b bs =>
      simp only [isPre, Bool.and_eq_true] at hp
      simp only [List.cons_append, isPre, Bool.and_eq_true]
      exact ⟨hp.1, ih hp.2⟩

theorem listContains_of_isPre {h n : List Char} (hp : isPre n h = true) :
    listContains h n = true := by
  unfold listContains
  rw [hp]
  rfl

theorem listContains_cons (c : Char) {h n : List Char}
    (hc : listContains h n = true) : listContains (c :: h) n = true := by
  unfold listContains
  dsimp only
  rw [hc]
  simp

theorem listContains_append_left (pre : List Char) {h n : List Char}
    (hc : listContains h n = true) : listContains (pre ++ h) n = true := by
  induction pre with
  | nil => exact hc
  | cons c cs ih => simpa using listContains_cons c ih

theorem listContains_append_right (post : List Char) {h n : List Char}
    (hc : listContains h n = true) : listContains (h ++ post) n = true := by
  induction h with
  | nil =>
    unfold listContains at hc
    cases n with
    | nil => exact listContains_of_isPre (by rfl)
    | cons a as => simp [isPre] at hc
  | cons c h' ih =>
    unfold listContains at hc
    rcases Bool.or_eq_true_iff.mp hc with hp | hc'
    · exact listContains_of_isPre (by simpa using isPre_extend post hp)
    · have := ih (by simpa using hc')
      simpa using listContains_cons c this

theorem strContains_refl (s : String) : strContainsSub s s = true :=
  listContains_of_isPre (isPre_refl s.data)

theorem strContains_append_left (pre : String) {h n : String}
    (hc : strContainsSub h n = true) : strContainsSub (pre ++ h) n = true := by
  unfold strContainsSub at *
  rw [String.data_append]
  exact listContains_append_left pre.data hc

theorem strContains_append_right (post : String) {h n : String}
    (hc : strContainsSub h n = true) : strContainsSub (h ++ post) n = true := by
  unfold strContainsSub at *
  rw [String.data_append]
  exact listContains_append_right post.data hc

theorem joinStr_mem_split (sep : String) :
    ∀ (l : List String) (x : String), x ∈ l →
      ∃ pre post, joinStr sep l = pre ++ (x ++ post) := by
  intro l
  induction l with
  | nil => intro x hx; cases hx
  | cons a rest ih =>
    intro x hx
    cases rest with
    | nil =>
      have hxa : x = a := by simpa using hx
      subst hxa
      exact ⟨"", "", by simp [joinStr]⟩
    | cons b rest' =>
      rcases List.mem_cons.mp hx with hxa | hx'
      · subst hxa
        refine ⟨"", sep ++ joinStr sep (b :: rest'), ?_⟩
        show x ++ sep ++ joinStr sep (b :: rest') = "" ++ (x ++ (sep ++ joinStr sep (b :: rest')))
        simp [String.append_assoc]
      · obtain ⟨pre, post, heq⟩ := ih x hx'
        refine ⟨a ++ sep ++ pre, post, ?_⟩
        show a ++ sep ++ joinStr sep (b :: rest') = a ++ sep ++ pre ++ (x ++ post)
        rw [heq]
        simp [String.append_assoc]

theorem contains_of_mem_join (sep : String) (l : List String) (x n : String)
    (hx : x ∈ l) (hc : strContainsSub x n = true) :
    strContainsSub (joinStr sep l) n = true := by
  obtain ⟨pre, post, heq⟩ := joinStr_mem_split sep l x hx
  rw [heq]
  exact strContains_append_left pre (strContains_append_right post hc)

/-- The matching loop of `_match_worktree_from_transcript` agrees with the
filter of candidates whose name occurs in the transcript: none, exactly
one, or ambiguous. -/
theorem scanWorktrees_spec (t : String) :
    ∀ (l : List WorktreeEntry) (acc : Option WorktreeEntry),
      scanWorktrees l t acc =
        match acc, l.filter (fun wt => strContainsSub t wt.name) with
        | Option.none, [] => WtScan.nothing
        | some wt, [] => WtScan.single wt
        | Option.none, [w] => WtScan.single w
        | Option.none, _ :: _ :: _ => WtScan.ambiguous
        | some _, _ :: _ => WtScan.ambiguous := by
  intro l
  induction l with
  | nil => intro acc; cases acc <;> rfl
  | cons wt rest ih =>
    intro acc
    by_cases hm : strContainsSub t wt.name
    · cases acc with
      | none =>
        rw [show scanWorktrees (wt :: rest) t Option.none
              = scanWorktrees rest t (some wt) by simp [scanWorktrees, hm]]
        rw [ih (some wt)]
        cases hf : rest.filter (fun wt => strContainsSub t wt.name) with
        | nil => simp [List.filter_cons, hm, hf]
        | cons a l' => simp [List.filter_cons, hm, hf]
      | some w =>
        rw [show scanWorktrees (wt :: rest) t (some w) = WtScan.ambiguous by
              simp [scanWorktrees, hm]]
        cases hf : rest.filter (fun wt => strContainsSub t wt.name) with
        | nil => simp [List.filter_cons, hm, hf]
        | cons a l' => simp [List.filter_cons, hm, hf]
    · rw [show scanWorktrees (wt :: rest) t acc = scanWorktrees rest t acc by
            cases acc <;> simp [scanWorktrees, hm]]
      rw [ih acc]
      simp [List.filter_cons, hm]

/-- C6: on a primary checkout with registered linked worktrees and a
readable transcript, exactly one worktree name occurring in the transcript
yields that worktree's branch and path, zero occurrences fall back to the
primary checkout's branch, and two or more yield an empty identity. -/
theorem precompact_git_identity (env : Env) (t : String)
    (htr : env.transcriptText = some t)
    (hcand : env.worktrees.filter (fun wt => wt.headContent.isSome) ≠ []) :
    (∀ wt, (env.worktrees.filter (fun wt => wt.headContent.isSome)).filter
        (fun wt => strContainsSub t wt.name) = [wt] →
      getGitContextMainRepo env =
        readBranchFromHead wt.headContent ++
          (match resolveWorktreePath wt.gitdirContent with
           | some p => [("worktree_path", p)]
           | Option.none => [])) ∧
    ((env.worktrees.filter (fun wt => wt.headContent.isSome)).filter
        (fun wt => strContainsSub t wt.name) = [] →
      getGitContextMainRepo env = readBranchFromHead env.mainHead) ∧
    (2 ≤ ((env.worktrees.filter (fun wt => wt.headContent.isSome)).filter
        (fun wt => strContainsSub t wt.name)).length →
      getGitContextMainRepo env = []) := by
  have hne : ¬((env.worktrees.filter (fun wt => wt.headContent.isSome)).isEmpty = true) := by
    rw [List.isEmpty_iff]
    exact hcand
  refine ⟨fun wt hm => ?_, fun hm => ?_, fun hm => ?_⟩
  · unfold getGitContextMainRepo matchWorktreeFromTranscript
    rw [htr]
    dsimp only
    rw [if_neg hne]
    rw [scanWorktrees_spec t _ Option.none, hm]
  · unfold getGitContextMainRepo matchWorktreeFromTranscript
    rw [htr]
    dsimp only
    rw [if_neg hne]
    rw [scanWorktrees_spec t _ Option.none, hm]
  · unfold getGitContextMainRepo matchWorktreeFromTranscript
    rw [htr]
    dsimp only
    rw [if_neg hne]
    rw [scanWorktrees_spec t _ Option.none]
    cases hms : (env.worktrees.filter (fun wt => wt.headContent.isSome)).filter
        (fun wt => strContainsSub t wt.name) with
    | nil => rw [hms] at hm; cases hm
    | cons a l' =>
      cases l' with
      | nil => rw [hms] at hm; simp at hm
      | cons b l'' => rfl

/-- A primary checkout with one registered worktree whose name occurs in
the transcript. -/
def envGitSingle : Env :=
  { gitState := .primary, mainHead := some "ref: refs/heads/main\n",
    worktrees := [⟨"my-feature", some "ref: refs/heads/feature/cool\n",
      some "/wts/my-feature/.git\n"⟩],
    transcriptText := some "cd /wts/my-feature && cargo test" }

/-- C6 witness: the single matching worktree's branch and path are
resolved. -/
theorem precompact_git_identity_witness :
    getGitContextMainRepo envGitSingle =
      [("branch", "feature/cool"), ("worktree_path", "/wts/my-feature")] := by
  have h := (precompact_git_identity envGitSingle "cd /wts/my-feature && cargo test"
    rfl (by decide)).1
    ⟨"my-feature", some "ref: refs/heads/feature/cool\n", some "/wts/my-feature/.git\n"⟩
    (by decide)
  rw [h]
  rfl

theorem buildContextReminder_contains_ref (files : List String)
    (userRefs : List String) (git : List (String × String))
    (fc : List (String × String)) (r : String) (hr : r ∈ userRefs.take 20) :
    strContainsSub (buildContextReminder files userRefs git fc) ("@" ++ r) = true := by
  have hne : userRefs ≠ [] := by
    intro h0
    rw [h0] at hr
    cases hr
  unfold buildContextReminder
  dsimp only
  rw [if_neg (by rw [List.isEmpty_iff]; exact hne)]
  refine contains_of_mem_join "\n" _ ("Refs: " ++
    joinStr ", " ((userRefs.take 20).map (fun x => "@" ++ x))) _
    (List.mem_append.mpr (.inr (List.mem_singleton.mpr rfl))) ?_
  exact strContains_append_left "Refs: "
    (contains_of_mem_join ", " _ ("@" ++ r) _
      (List.mem_map.mpr ⟨r, hr, rfl⟩) (strContains_refl _))

/-- C7 (amended): the PreCompact injected context includes each of the
first 20 distinct `@`-paths mentioned in user turns — whether or not they
resolve to existing files — and renders them, in order of first mention, in
a `Refs:` section; distinct paths beyond the first 20 are dropped. -/
theorem precompact_refs_included (inp : HookInput) (env : Env) (cfg : Config) :
    (∀ r ∈ (extractUserRefs env inp.transcriptPath).take 20,
      strContainsSub (preCompactHandle inp env cfg).additionalContext ("@" ++ r)
        = true) ∧
    (extractUserRefs env inp.transcriptPath ≠ [] →
      ∃ preParts, (preCompactHandle inp env cfg).additionalContext =
        joinStr "\n" (preParts ++ ["Refs: " ++ joinStr ", "
          (((extractUserRefs env inp.transcriptPath).take 20).map
            (fun x => "@" ++ x))])) := by
  constructor
  · intro r hr
    have hne : extractUserRefs env inp.transcriptPath ≠ [] := by
      intro h0
      rw [h0] at hr
      cases hr
    have hrefsF : (extractUserRefs env inp.transcriptPath).isEmpty = false := by
      rw [List.isEmpty_eq_false]
      exact hne
    unfold preCompactHandle
    dsimp only
    rw [if_neg (by simp [hrefsF])]
    exact buildContextReminder_contains_ref _ _ _ _ r hr
  · intro hne
    have hrefsF : (extractUserRefs env inp.transcriptPath).isEmpty = false := by
      rw [List.isEmpty_eq_false]
      exact hne
    unfold preCompactHandle
    dsimp only
    rw [if_neg (by simp [hrefsF])]
    show ∃ preParts, buildContextReminder _ _ _ _ = _
    unfold buildContextReminder
    dsimp only
    rw [if_neg (by rw [List.isEmpty_iff]; exact hne)]
    exact ⟨_, rfl⟩

/-- A transcript whose user turn mentions 21 distinct `@`-paths. -/
def envManyRefs : Env :=
  { transcript := [.dict [("role", .str "user"), ("content", .str
      "@r01 @r02 @r03 @r04 @r05 @r06 @r07 @r08 @r09 @r10 @r11 @r12 @r13 @r14 @r15 @r16 @r17 @r18 @r19 @r20 @r21")]] }

def inpManyRefs : HookInput :=
  { eventName := "PreCompact", transcriptPath := "/t", cwd := "/repo" }

/-- C7 counterexample: `r21` is a distinct `@`-path mentioned in a user
turn, yet the injected context does not include `@r21` — only the first 20
distinct mentions are kept. -/
theorem precompact_ref21_dropped :
    "r21" ∈ extractUserRefs envManyRefs "/t" ∧
    strContainsSub (preCompactHandle inpManyRefs envManyRefs {}).additionalContext
      "@r21" = false := by
  exact ⟨by decide, by decide⟩

/-- C7 (amended) witness: `r01` is among the first 20 distinct mentions and
appears in the injected context, although no such file exists. -/
theorem precompact_refs_included_witness :
    "r01" ∈ (extractUserRefs envManyRefs "/t").take 20 ∧
    strContainsSub (preCompactHandle inpManyRefs envManyRefs {}).additionalContext
      "@r01" = true := by
  refine ⟨by decide, ?_⟩
  exact (precompact_refs_included inpManyRefs envManyRefs {}).1 "r01" (by decide)

end DrinkingBird
